import Mathlib

/-!
Shallow embedding of `MOPDERL/replay_memory.py` (class `ReplayMemory`) and
proofs about it.

Modelling conventions:
* A stored transition is abstract (`σ`); the five numeric field arrays of a
  transition only matter for `sample`, where `σ` is instantiated with
  `Transition ρ` (`ρ` the abstract row type of one reshaped field array).
* `self.memory` is a `List (Option σ)`: `add` first appends the Python
  placeholder `None` (here `none`) and then assigns `memory[position]`.
  List assignment out of range raises `IndexError` in Python, so `add`
  returns an `Option`; `none` models the raised exception.
* Python list slices `l[i:]` and `l[:i]` with possibly negative `i` are
  modelled by `pySliceFrom` / `pySliceTo` with an `Int` index, including
  the clamping behaviour and `-0 = 0`.
* The two sources of randomness (`random.sample`) are modelled by an
  explicit oracle argument `idxs : List Nat` choosing the sampled indices;
  the size check performed by `random.sample` is kept.
* `save_info` / `load_info` abstract the npy file into a `SavedFile`
  record holding the header pair and the stored transitions in order.
-/

namespace MOPDERL

/-- Python list slice `l[i:]` for an `Int` index: non-negative indices drop
from the front, negative indices count from the end and clamp at 0. -/
def pySliceFrom (l : List α) (i : Int) : List α :=
  if 0 ≤ i then l.drop i.toNat else l.drop ((l.length : Int) + i).toNat

/-- Python list slice `l[:i]` for an `Int` index. -/
def pySliceTo (l : List α) (i : Int) : List α :=
  if 0 ≤ i then l.take i.toNat else l.take ((l.length : Int) + i).toNat

/-- The namedtuple `Transition` of `replay_memory.py`: five field arrays,
each one reshaped row (abstract type `ρ`), in the fixed source order. -/
structure Transition (ρ : Type) where
  state : ρ
  action : ρ
  reward : ρ
  next_state : ρ
  done : ρ
deriving DecidableEq

/-- The state of a `ReplayMemory` object: `capacity`, `self.memory`
(elements are `Option` because `add` appends `None` before assigning), and
`self.position`. -/
structure ReplayMemory (σ : Type) where
  capacity : Nat
  memory : List (Option σ)
  position : Nat
deriving DecidableEq

/-- `ReplayMemory.__init__` (the `device` argument is a pass-through
collaborator and is not modelled). -/
def ReplayMemory.empty (σ : Type) (capacity : Nat) : ReplayMemory σ :=
  ⟨capacity, [], 0⟩

/-- `ReplayMemory.add`: append `None` when below capacity, assign the slot
at `position` (Python raises `IndexError`, modelled as `none`, when
`position` is out of range), advance `position` modulo `capacity`. -/
def ReplayMemory.add (m : ReplayMemory σ) (t : σ) : Option (ReplayMemory σ) :=
  let mem1 := if m.memory.length < m.capacity then m.memory ++ [none] else m.memory
  if m.position < mem1.length then
    some ⟨m.capacity, mem1.set m.position (some t), (m.position + 1) % m.capacity⟩
  else
    none

/-- A sequence of `add` calls. -/
def ReplayMemory.addAll (m : ReplayMemory σ) (ts : List σ) : Option (ReplayMemory σ) :=
  ts.foldlM ReplayMemory.add m

/-- `ReplayMemory.get_latest`, with the source's four branches and Python
slice arithmetic (`memory[-latest:]`, `memory[:position][-latest:]`,
`memory[-latest+position:] + memory[:position]`). -/
def ReplayMemory.get_latest (m : ReplayMemory σ) (latest : Nat) : List (Option σ) :=
  if m.capacity < latest then
    pySliceFrom m.memory (m.position : Int) ++ pySliceTo m.memory (m.position : Int)
  else if m.memory.length < m.capacity then
    pySliceFrom m.memory (-(latest : Int))
  else if latest ≤ m.position then
    pySliceFrom (pySliceTo m.memory (m.position : Int)) (-(latest : Int))
  else
    pySliceFrom m.memory ((m.position : Int) - (latest : Int)) ++
      pySliceTo m.memory (m.position : Int)

/-- `ReplayMemory.__len__`. -/
def ReplayMemory.length (m : ReplayMemory σ) : Nat :=
  m.memory.length

/-- The four branches of `get_latest` written from the spec's words:
entire storage in wrap order when `capacity < n`; last `n` elements in
insertion order when not yet full; `storage[cursor-n : cursor]` when full
with `cursor ≥ n`; tail wrap segment followed by head-to-cursor segment
when full with `cursor < n`. -/
def getLatestSpec (m : ReplayMemory σ) (n : Nat) : List (Option σ) :=
  if m.capacity < n then
    m.memory.drop m.position ++ m.memory.take m.position
  else if m.memory.length < m.capacity then
    m.memory.drop (m.memory.length - n)
  else if n ≤ m.position then
    (m.memory.take m.position).drop (m.position - n)
  else
    m.memory.drop (m.memory.length - (n - m.position)) ++ m.memory.take m.position

/-- Well-formedness of a buffer state: positive capacity, the stored count
never exceeds capacity, the cursor is in `[0, capacity)` and equals the
count while the buffer is filling, and no `None` placeholder is stored.
All states reachable by construction plus `add` calls satisfy this. -/
def WF (m : ReplayMemory σ) : Prop :=
  0 < m.capacity ∧ m.memory.length ≤ m.capacity ∧ m.position < m.capacity ∧
    (m.memory.length < m.capacity → m.position = m.memory.length) ∧
    ∀ x ∈ m.memory, x.isSome

lemma pySliceFrom_ofNat (l : List α) (i : Nat) :
    pySliceFrom l (i : Int) = l.drop i := by
  simp [pySliceFrom]

lemma pySliceTo_ofNat (l : List α) (i : Nat) :
    pySliceTo l (i : Int) = l.take i := by
  simp [pySliceTo]

lemma pySliceFrom_neg_ofNat (l : List α) (n : Nat) (hn : 0 < n) :
    pySliceFrom l (-(n : Int)) = l.drop (l.length - n) := by
  unfold pySliceFrom
  rw [if_neg (by omega)]
  congr 1
  omega

lemma pySliceFrom_sub (l : List α) (p n : Nat) (h : p < n) :
    pySliceFrom l ((p : Int) - (n : Int)) = l.drop (l.length - (n - p)) := by
  unfold pySliceFrom
  rw [if_neg (by omega)]
  congr 1
  omega

/-- C1: for every well-formed buffer and every `n > 0`, `get_latest n`
follows the four specified branches exactly, and in the full-with-wrap
branch the result has length exactly `n`. -/
theorem get_latest_four_branches (m : ReplayMemory σ) (n : Nat)
    (hwf : WF m) (hn : 0 < n) :
    m.get_latest n = getLatestSpec m n ∧
      (m.memory.length = m.capacity → m.position < n → n ≤ m.capacity →
        (m.get_latest n).length = n) := by
  obtain ⟨hcap, hlen, hpos, hfill, hsome⟩ := hwf
  constructor
  · unfold ReplayMemory.get_latest getLatestSpec
    by_cases h1 : m.capacity < n
    · rw [if_pos h1, if_pos h1, pySliceFrom_ofNat, pySliceTo_ofNat]
    · rw [if_neg h1, if_neg h1]
      by_cases h2 : m.memory.length < m.capacity
      · rw [if_pos h2, if_pos h2, pySliceFrom_neg_ofNat _ _ hn]
      · rw [if_neg h2, if_neg h2]
        have hfull : m.memory.length = m.capacity := by omega
        by_cases h3 : n ≤ m.position
        · rw [if_pos h3, if_pos h3, pySliceTo_ofNat,
            pySliceFrom_neg_ofNat _ _ hn]
          congr 1
          rw [List.length_take]
          omega
        · rw [if_neg h3, if_neg h3, pySliceTo_ofNat,
            pySliceFrom_sub _ _ _ (by omega)]
  · intro hfull h3 h4
    unfold ReplayMemory.get_latest
    rw [if_neg (by omega), if_neg (by omega), if_neg (by omega),
      pySliceTo_ofNat, pySliceFrom_sub _ _ _ h3]
    rw [List.length_append, List.length_drop, List.length_take]
    omega

/-- Witness for C1 at a concrete full wrapped buffer. -/
theorem get_latest_four_branches_witness :
    (ReplayMemory.get_latest (⟨2, [some 5, some 7], 1⟩ : ReplayMemory Nat) 2 =
        getLatestSpec (⟨2, [some 5, some 7], 1⟩ : ReplayMemory Nat) 2) ∧
      ((2 : Nat) = 2 → (1 : Nat) < 2 → (2 : Nat) ≤ 2 →
        (ReplayMemory.get_latest (⟨2, [some 5, some 7], 1⟩ : ReplayMemory Nat) 2).length = 2) := by
  have h := get_latest_four_branches (⟨2, [some 5, some 7], 1⟩ : ReplayMemory Nat) 2
    (by constructor <;> simp [WF]) (by decide)
  exact ⟨h.1, fun _ _ _ => h.2 rfl (by decide) (by decide)⟩

/-- The stored transitions read in circular order starting at the cursor:
oldest first, most recent last (for a full buffer the cursor points at the
oldest slot; for a filling buffer the cursor equals the length, so this is
just the storage). -/
def wrapOrder (m : ReplayMemory σ) : List (Option σ) :=
  m.memory.drop m.position ++ m.memory.take m.position

/-- Characterisation of the state reached by inserting `xs`, in order, into
an empty buffer of capacity `cap`. -/
def liveState (cap : Nat) (xs : List σ) (m : ReplayMemory σ) : Prop :=
  m.capacity = cap ∧
    m.position = xs.length % cap ∧
    m.memory.length = min xs.length cap ∧
    (xs.length ≤ cap → m.memory = xs.map some) ∧
    wrapOrder m = (xs.drop (xs.length - cap)).map some

lemma addAll_concat (m : ReplayMemory σ) (xs : List σ) (x : σ) :
    m.addAll (xs ++ [x]) = (m.addAll xs).bind (fun m1 => m1.add x) := by
  unfold ReplayMemory.addAll
  rw [List.foldlM_append]
  cases h : xs.foldlM ReplayMemory.add m <;> simp [List.foldlM]

/-- The slot assignment of `add` on a filling buffer: setting the slot just
appended. -/
lemma set_append_none (A : List (Option σ)) (v : Option σ) :
    (A ++ [none]).set A.length v = A ++ [v] := by
  rw [List.set_eq_take_cons_drop _ (by simp)]
  have h1 : (A ++ [none]).take A.length = A := by
    rw [show A.length = A.length + 0 by rfl, List.take_append, List.take_zero,
      List.append_nil]
  have h2 : (A ++ [none]).drop (A.length + 1) = [] := by
    rw [List.drop_append]
    rfl
  rw [h1, h2]

/-- The circular-order effect of overwriting the slot at the cursor of a
full buffer: the oldest element is dropped and the new one appended. -/
lemma wrap_set_full (M : List (Option σ)) (p : Nat) (v : Option σ)
    (hp : p < M.length) :
    (M.set p v).drop ((p + 1) % M.length) ++ (M.set p v).take ((p + 1) % M.length)
      = (M.drop p ++ M.take p).drop 1 ++ [v] := by
  have hTlen : (M.take p).length = p := by
    rw [List.length_take]
    omega
  have hset : M.set p v = M.take p ++ v :: M.drop (p + 1) :=
    List.set_eq_take_cons_drop v hp
  have hdrop1 : (M.drop p ++ M.take p).drop 1 = M.drop (p + 1) ++ M.take p := by
    rw [List.drop_append_of_le_length (by rw [List.length_drop]; omega),
      List.drop_drop]
  rw [hdrop1]
  by_cases hlast : p + 1 < M.length
  · have hmod : (p + 1) % M.length = p + 1 := Nat.mod_eq_of_lt hlast
    rw [hmod, hset]
    have hd : (M.take p ++ v :: M.drop (p + 1)).drop (p + 1) = M.drop (p + 1) := by
      rw [show p + 1 = (M.take p).length + 1 by rw [hTlen], List.drop_append]
      rfl
    have ht : (M.take p ++ v :: M.drop (p + 1)).take (p + 1) = M.take p ++ [v] := by
      rw [show p + 1 = (M.take p).length + 1 by rw [hTlen], List.take_append]
      rfl
    rw [hd, ht, List.append_assoc]
  · have hpe : p + 1 = M.length := by omega
    have hmod : (p + 1) % M.length = 0 := by
      rw [hpe, Nat.mod_self]
    have hD : M.drop (p + 1) = [] := by
      rw [hpe, List.drop_length]
    rw [hmod, List.drop_zero, List.take_zero, List.append_nil, hset, hD]
    simp

/-- `add` on a filling buffer whose cursor sits at the end (as on every
state reached by inserts alone) appends the new transition. -/
lemma add_eq_filling (m : ReplayMemory σ) (x : σ)
    (h : m.memory.length < m.capacity) (hp : m.position = m.memory.length) :
    m.add x = some ⟨m.capacity, m.memory ++ [some x], (m.position + 1) % m.capacity⟩ := by
  unfold ReplayMemory.add
  simp only []
  rw [if_pos h, if_pos (by simp; omega)]
  rw [hp, set_append_none]

/-- `add` on a full buffer overwrites the slot at the cursor. -/
lemma add_eq_full (m : ReplayMemory σ) (x : σ)
    (h : ¬ m.memory.length < m.capacity) (hp : m.position < m.memory.length) :
    m.add x = some ⟨m.capacity, m.memory.set m.position (some x),
      (m.position + 1) % m.capacity⟩ := by
  unfold ReplayMemory.add
  simp only []
  rw [if_neg h, if_pos hp]

/-- Inserting `xs` into an empty buffer of positive capacity never raises
and reaches exactly the state described by `liveState`. -/
lemma addAll_empty_char (cap : Nat) (hcap : 0 < cap) (xs : List σ) :
    ∃ m, (ReplayMemory.empty σ cap).addAll xs = some m ∧ liveState cap xs m := by
  induction xs using List.reverseRecOn with
  | nil =>
    refine ⟨ReplayMemory.empty σ cap, rfl, rfl, ?_, ?_, fun _ => rfl, ?_⟩
    · simp [ReplayMemory.empty]
    · simp [ReplayMemory.empty]
    · simp [wrapOrder, ReplayMemory.empty]
  | append_singleton xs x ih =>
    obtain ⟨m, hm, hcapEq, hpos, hlen, hnf, hwrap⟩ := ih
    rw [addAll_concat, hm, Option.some_bind]
    set t := xs.length with ht
    by_cases hfull : t < cap
    · -- buffer still filling: slot is appended then assigned
      have hmem : m.memory = xs.map some := hnf (by omega)
      have hposv : m.position = t := by
        rw [hpos, Nat.mod_eq_of_lt hfull]
      have hlenv : m.memory.length = t := by
        rw [hmem]
        simp
      have hstep := add_eq_filling m x (by omega) (by omega)
      rw [hstep, hcapEq, hposv, hmem]
      rw [show xs.map some ++ [some x] = (xs ++ [x]).map some by simp]
      refine ⟨_, rfl, rfl, by simp [ht], ?_, ?_, ?_⟩
      · simp
        omega
      · intro h
        rfl
      · have hlen' : ((xs ++ [x]).map some).length = t + 1 := by simp
        have hdz : (xs ++ [x]).length - cap = 0 := by
          simp only [List.length_append, List.length_cons, List.length_nil]
          omega
        unfold wrapOrder
        simp only [hdz, List.drop_zero]
        by_cases hlast : t + 1 < cap
        · rw [Nat.mod_eq_of_lt hlast, ← hlen', List.drop_length,
            List.take_length, List.nil_append]
        · have : (t + 1) % cap = 0 := by
            rw [show t + 1 = cap by omega, Nat.mod_self]
          rw [this, List.drop_zero, List.take_zero, List.append_nil]
    · -- buffer full: the slot at the cursor is overwritten
      have hlenv : m.memory.length = cap := by
        rw [hlen]
        omega
      have hposlt : m.position < cap := by
        rw [hpos]
        exact Nat.mod_lt _ hcap
      have hstep := add_eq_full m x (by omega) (by omega)
      rw [hstep, hcapEq]
      refine ⟨_, rfl, rfl, ?_, ?_, ?_, ?_⟩
      · simp only [List.length_append, List.length_cons, List.length_nil, ht]
        rw [hpos, Nat.mod_add_mod]
      · simp only [List.length_set, hlenv, List.length_append]
        omega
      · intro h
        simp only [List.length_append, List.length_cons, List.length_nil] at h
        omega
      · unfold wrapOrder
        simp only [List.length_set, hlenv]
        have hkey := wrap_set_full m.memory m.position (some x) (by omega)
        rw [hlenv] at hkey
        rw [hkey]
        unfold wrapOrder at hwrap
        rw [hwrap]
        have hgoal : (xs ++ [x]).drop ((xs ++ [x]).length - cap)
            = (xs.drop (t - cap)).drop 1 ++ [x] := by
          have h1 : (xs ++ [x]).length - cap = (t - cap) + 1 := by
            simp only [List.length_append, List.length_cons, List.length_nil]
            omega
          rw [h1, List.drop_append_of_le_length (by omega), List.drop_drop]
        rw [hgoal]
        simp [List.map_drop]

/-- C2: after every sequence of inserts into an empty buffer of positive
capacity, the stored count equals `min(total_inserts, capacity)` and the
write cursor equals `total_inserts mod capacity` (quantifying over all
insert sequences covers the state after each insert). -/
theorem add_invariants (cap : Nat) (hcap : 0 < cap) (xs : List σ) :
    ∃ m, (ReplayMemory.empty σ cap).addAll xs = some m ∧
      m.length = min xs.length cap ∧ m.position = xs.length % cap := by
  obtain ⟨m, hm, _, hpos, hlen, _, _⟩ := addAll_empty_char cap hcap xs
  exact ⟨m, hm, hlen, hpos⟩

/-- Witness for C2: three inserts into a capacity-2 buffer. -/
theorem add_invariants_witness :
    ∃ m, (ReplayMemory.empty Nat 2).addAll [1, 2, 3] = some m ∧
      m.length = min 3 2 ∧ m.position = 3 % 2 :=
  add_invariants 2 (by decide) [1, 2, 3]

/-- C3: inserting `C + k` items (`k ≥ 1`) into an empty buffer of capacity
`C > 0` leaves exactly the last `C` inserted items in storage (as a
permutation), and `get_latest C` returns them in insertion order. -/
theorem overwrite_correctness (C k : Nat) (xs : List σ) (hC : 0 < C)
    (hk : 1 ≤ k) (hlen : xs.length = C + k) :
    ∃ m, (ReplayMemory.empty σ C).addAll xs = some m ∧
      m.get_latest C = (xs.drop k).map some ∧
      m.memory.Perm ((xs.drop k).map some) := by
  obtain ⟨m, hm, hcapEq, hpos, hmlen, _, hwrap⟩ := addAll_empty_char C hC xs
  have hmlenv : m.memory.length = C := by
    rw [hmlen]
    omega
  have hposlt : m.position < C := by
    rw [hpos]
    exact Nat.mod_lt _ hC
  have hdrop : xs.length - C = k := by omega
  rw [hdrop] at hwrap
  have hperm : m.memory.Perm (wrapOrder m) := by
    unfold wrapOrder
    conv_lhs => rw [← List.take_append_drop m.position m.memory]
    exact List.perm_append_comm
  refine ⟨m, hm, ?_, ?_⟩
  · unfold ReplayMemory.get_latest
    rw [hcapEq, if_neg (by omega), if_neg (by omega), if_neg (by omega),
      pySliceTo_ofNat, pySliceFrom_sub _ _ _ hposlt,
      show m.memory.length - (C - m.position) = m.position by omega]
    rw [← wrapOrder, hwrap]
  · rw [hwrap] at hperm
    exact hperm

/-- Witness for C3: capacity 2, three inserts. -/
theorem overwrite_correctness_witness :
    ∃ m, (ReplayMemory.empty Nat 2).addAll [1, 2, 3] = some m ∧
      m.get_latest 2 = [some 2, some 3] ∧ m.memory.Perm [some 2, some 3] :=
  overwrite_correctness 2 1 [1, 2, 3] (by decide) (by decide) rfl

/-- C9 counterexample: a reachable non-empty buffer (capacity 1, one
insert, so full with cursor 0) on which `get_latest 0` returns the empty
list, refuting the claim that `get_latest 0` is non-empty on every
non-empty buffer. -/
theorem get_latest_zero_cex :
    (ReplayMemory.empty Nat 1).addAll [0] = some ⟨1, [some 0], 0⟩ ∧
      (⟨1, [some 0], 0⟩ : ReplayMemory Nat).memory ≠ [] ∧
      ReplayMemory.get_latest (⟨1, [some 0], 0⟩ : ReplayMemory Nat) 0 = [] := by
  decide

/-- C9 amended: on a well-formed buffer, `get_latest 0` returns the entire
storage when the buffer is not full and `storage[:cursor]` when it is full;
hence it is non-empty for every non-empty buffer that is not full or has a
positive cursor (but it is empty when full with cursor 0). -/
theorem get_latest_zero_amended (m : ReplayMemory σ) (hwf : WF m) :
    (m.memory.length < m.capacity → m.get_latest 0 = m.memory) ∧
      (m.memory.length = m.capacity → m.get_latest 0 = m.memory.take m.position) ∧
      (m.memory ≠ [] → m.memory.length < m.capacity ∨ 0 < m.position →
        m.get_latest 0 ≠ []) := by
  obtain ⟨hcap, hlen, hpos, hfill, _⟩ := hwf
  have hnotlt : ¬ m.capacity < 0 := by omega
  have hA : m.memory.length < m.capacity → m.get_latest 0 = m.memory := by
    intro h2
    unfold ReplayMemory.get_latest
    rw [if_neg hnotlt, if_pos h2]
    simp [pySliceFrom]
  have hB : m.memory.length = m.capacity → m.get_latest 0 = m.memory.take m.position := by
    intro h2
    unfold ReplayMemory.get_latest
    rw [if_neg hnotlt, if_neg (by omega), if_pos (Nat.zero_le _)]
    simp [pySliceFrom, pySliceTo]
  refine ⟨hA, hB, ?_⟩
  intro hne hor
  by_cases h2 : m.memory.length < m.capacity
  · rw [hA h2]
    exact hne
  · have hfull : m.memory.length = m.capacity := by omega
    rw [hB hfull]
    have hp : 0 < m.position := by
      rcases hor with h | h
      · omega
      · exact h
    intro heq
    have hlen0 := congrArg List.length heq
    rw [List.length_take] at hlen0
    rcases Nat.min_eq_zero_iff.mp hlen0 with h | h
    · omega
    · exact hne (List.length_eq_zero.mp h)

/-- Witness for the amended C9 at a concrete filling buffer. -/
theorem get_latest_zero_amended_witness :
    ReplayMemory.get_latest (⟨2, [some 4], 1⟩ : ReplayMemory Nat) 0 = [some 4] :=
  (get_latest_zero_amended (⟨2, [some 4], 1⟩ : ReplayMemory Nat)
    (by unfold WF; decide)).1 (by decide)

/-- The npy file written by `save_info`: the two-element integer header
`[count, write_cursor]` followed by the stored transitions (five field
arrays each) in storage order. -/
structure SavedFile (σ : Type) where
  count : Nat
  pos : Nat
  items : List σ
deriving DecidableEq

/-- `ReplayMemory.save_info`: writes `[len(memory), position]` and then the
field arrays of every stored transition in storage order.  Accessing the
fields of a stored `None` placeholder raises in Python, modelled by
`none`. -/
def ReplayMemory.save_info (m : ReplayMemory σ) : Option (SavedFile σ) :=
  if m.memory.all Option.isSome then
    some ⟨m.memory.length, m.position, m.memory.reduceOption⟩
  else
    none

/-- `ReplayMemory.load_info`: sets `memory = []` (the cursor is NOT reset),
reads the header, re-inserts `count` transitions through `add`, then
overwrites the cursor with the saved value.  A read past the end of the
file or an `IndexError` raised inside `add` is modelled by `none`. -/
def ReplayMemory.load_info (m : ReplayMemory σ) (f : SavedFile σ) :
    Option (ReplayMemory σ) :=
  if f.count ≤ f.items.length then
    match ReplayMemory.addAll ⟨m.capacity, [], m.position⟩ (f.items.take f.count) with
    | some m1 => some ⟨m1.capacity, m1.memory, f.pos⟩
    | none => none
  else
    none

lemma reduceOption_of_all_isSome (l : List (Option σ)) (h : ∀ x ∈ l, x.isSome) :
    l.reduceOption.map some = l ∧ l.reduceOption.length = l.length := by
  induction l with
  | nil => exact ⟨rfl, rfl⟩
  | cons a t ih =>
    obtain ⟨h1, h2⟩ := ih fun x hx => h x (by simp [hx])
    have ha := h a (by simp)
    match a, ha with
    | some b, _ =>
      refine ⟨?_, ?_⟩
      · rw [List.reduceOption_cons_of_some, List.map_cons, h1]
      · rw [List.reduceOption_cons_of_some, List.length_cons, List.length_cons, h2]

/-- C5 counterexample: a reachable buffer with nonzero cursor (capacity 2
after one insert).  `load_info` clears the storage but not the cursor, so
the first re-insert assigns `memory[1]` on a one-element list and raises
`IndexError` instead of performing the described re-insertion. -/
theorem load_nonzero_cursor_cex :
    (ReplayMemory.empty Nat 2).addAll [7] = some ⟨2, [some 7], 1⟩ ∧
      ReplayMemory.load_info (⟨2, [some 7], 1⟩ : ReplayMemory Nat) ⟨1, 0, [9]⟩ = none := by
  decide

/-- C5 amended: on a buffer whose cursor is 0 at call time (e.g. fresh or
reset), `load_info` re-inserts the `count` saved transitions in saved order
through the normal insert path — reproducing exactly the storage a live
insert sequence would build, including overwrite when `count` exceeds
capacity — and finally sets the cursor to the saved value. -/
theorem load_behavior_amended (m : ReplayMemory σ) (f : SavedFile σ)
    (hpos : m.position = 0) (hcap : 0 < m.capacity)
    (hcount : f.count ≤ f.items.length) :
    ∃ m' mlive, m.load_info f = some m' ∧
      (ReplayMemory.empty σ m.capacity).addAll (f.items.take f.count) = some mlive ∧
      m'.capacity = m.capacity ∧ m'.memory = mlive.memory ∧ m'.position = f.pos := by
  obtain ⟨mlive, hlive, hcapEq, _, _, _, _⟩ :=
    addAll_empty_char m.capacity hcap (f.items.take f.count)
  refine ⟨⟨mlive.capacity, mlive.memory, f.pos⟩, mlive, ?_, hlive, hcapEq, rfl, rfl⟩
  unfold ReplayMemory.load_info
  rw [if_pos hcount]
  have hstart : (⟨m.capacity, [], m.position⟩ : ReplayMemory σ) =
      ReplayMemory.empty σ m.capacity := by
    rw [hpos]
    rfl
  rw [hstart, hlive]

/-- Witness for the amended C5: loading a 3-transition file into a fresh
capacity-2 buffer overwrites the first entry as a live insert would. -/
theorem load_behavior_amended_witness :
    ∃ m' mlive, (ReplayMemory.empty Nat 2).load_info ⟨3, 1, [1, 2, 3]⟩ = some m' ∧
      (ReplayMemory.empty Nat 2).addAll ([1, 2, 3].take 3) = some mlive ∧
      m'.capacity = 2 ∧ m'.memory = mlive.memory ∧ m'.position = 1 :=
  load_behavior_amended (ReplayMemory.empty Nat 2) ⟨3, 1, [1, 2, 3]⟩ rfl
    (by decide) (by decide)

/-- C4 counterexample: a full wrapped buffer of capacity 2 saved and loaded
into a fresh buffer of capacity 3.  Length is preserved but the loaded
buffer is no longer full, so its `get_latest` takes the filling branch and
returns the storage unrotated, disagreeing with the source buffer. -/
theorem roundtrip_cex :
    (ReplayMemory.empty Nat 2).addAll [0, 1, 2] = some ⟨2, [some 2, some 1], 1⟩ ∧
      ReplayMemory.save_info (⟨2, [some 2, some 1], 1⟩ : ReplayMemory Nat) =
        some ⟨2, 1, [2, 1]⟩ ∧
      ReplayMemory.load_info (ReplayMemory.empty Nat 3) ⟨2, 1, [2, 1]⟩ =
        some ⟨3, [some 2, some 1], 1⟩ ∧
      ReplayMemory.length (⟨3, [some 2, some 1], 1⟩ : ReplayMemory Nat) =
        ReplayMemory.length (⟨2, [some 2, some 1], 1⟩ : ReplayMemory Nat) ∧
      ReplayMemory.get_latest (⟨3, [some 2, some 1], 1⟩ : ReplayMemory Nat) 2 ≠
        ReplayMemory.get_latest (⟨2, [some 2, some 1], 1⟩ : ReplayMemory Nat) 2 := by
  decide

/-- C4 amended: save-then-load into a fresh buffer reproduces `length()`
and `get_latest(length())` element-wise when the fresh capacity equals the
source's, and also for a greater capacity provided the source buffer is
not full or its cursor is 0 (for a full wrapped source a strictly larger
destination returns the storage unrotated). -/
theorem roundtrip_persistence_amended (B : ReplayMemory σ) (C' : Nat)
    (hwf : WF B) (hge : B.capacity ≤ C')
    (hcase : C' = B.capacity ∨ B.memory.length < B.capacity ∨ B.position = 0) :
    ∃ f d, B.save_info = some f ∧
      (ReplayMemory.empty σ C').load_info f = some d ∧
      d.length = B.length ∧ d.get_latest B.length = B.get_latest B.length := by
  obtain ⟨hcap, hlen, hposlt, hfill, hsome⟩ := hwf
  have hall : B.memory.all Option.isSome = true := List.all_eq_true.mpr hsome
  obtain ⟨hro1, hro2⟩ := reduceOption_of_all_isSome B.memory hsome
  refine ⟨⟨B.memory.length, B.position, B.memory.reduceOption⟩,
    ⟨C', B.memory, B.position⟩, ?_, ?_, rfl, ?_⟩
  · unfold ReplayMemory.save_info
    rw [if_pos hall]
  · have hcount : B.memory.length ≤ B.memory.reduceOption.length := by omega
    have htake : B.memory.reduceOption.take B.memory.length = B.memory.reduceOption := by
      rw [← hro2, List.take_length]
    obtain ⟨mlive, hlive, hcapEq, _, _, hnf2, _⟩ :=
      addAll_empty_char C' (by omega) (B.memory.reduceOption.take B.memory.length)
    have hmem2 : mlive.memory = B.memory := by
      rw [hnf2 (by rw [htake]; omega), htake, hro1]
    unfold ReplayMemory.load_info
    rw [if_pos hcount]
    have hstart : (⟨(ReplayMemory.empty σ C').capacity, [],
        (ReplayMemory.empty σ C').position⟩ : ReplayMemory σ) =
        ReplayMemory.empty σ C' := rfl
    rw [hstart, hlive]
    show some ⟨mlive.capacity, mlive.memory, B.position⟩ =
      some (⟨C', B.memory, B.position⟩ : ReplayMemory σ)
    rw [hcapEq, hmem2]
  · by_cases hC : C' = B.capacity
    · have hd : (⟨C', B.memory, B.position⟩ : ReplayMemory σ) = B := by
        rw [hC]
      rw [hd]
    · have hC' : B.capacity < C' := by omega
      have hsub : B.memory.length < B.capacity ∨ B.position = 0 := by
        rcases hcase with h | h | h
        · exact absurd h hC
        · exact Or.inl h
        · exact Or.inr h
      show ReplayMemory.get_latest ⟨C', B.memory, B.position⟩ B.length = _
      rcases hsub with hnf3 | hp0
      · -- source not full: both sides take the filling branch
        unfold ReplayMemory.get_latest ReplayMemory.length
        rw [if_neg (by simp; omega), if_pos (by simp; omega),
          if_neg (by omega), if_pos hnf3]
      · -- source full with cursor 0
        by_cases hnf3 : B.memory.length < B.capacity
        · unfold ReplayMemory.get_latest ReplayMemory.length
          rw [if_neg (by simp; omega), if_pos (by simp; omega),
            if_neg (by omega), if_pos hnf3]
        · have hfull : B.memory.length = B.capacity := by omega
          unfold ReplayMemory.get_latest ReplayMemory.length
          rw [if_neg (by simp; omega), if_pos (by simp; omega),
            if_neg (by omega), if_neg hnf3,
            if_neg (by rw [hp0]; omega)]
          rw [hp0]
          rw [pySliceFrom_neg_ofNat _ _ (by omega),
            pySliceFrom_sub _ _ _ (by omega : 0 < B.memory.length)]
          simp [pySliceTo]

/-- Witness for the amended C4 at equal capacity with a wrapped source. -/
theorem roundtrip_persistence_amended_witness :
    ∃ f d, ReplayMemory.save_info (⟨2, [some 2, some 1], 1⟩ : ReplayMemory Nat) = some f ∧
      (ReplayMemory.empty Nat 2).load_info f = some d ∧
      d.length = ReplayMemory.length (⟨2, [some 2, some 1], 1⟩ : ReplayMemory Nat) ∧
      d.get_latest (ReplayMemory.length (⟨2, [some 2, some 1], 1⟩ : ReplayMemory Nat)) =
        ReplayMemory.get_latest (⟨2, [some 2, some 1], 1⟩ : ReplayMemory Nat)
          (ReplayMemory.length (⟨2, [some 2, some 1], 1⟩ : ReplayMemory Nat)) :=
  roundtrip_persistence_amended (⟨2, [some 2, some 1], 1⟩ : ReplayMemory Nat) 2
    (by unfold WF; decide) (by decide) (Or.inl rfl)

/-- Python exceptions surfacing from `sample`/`sample_from_latest`:
`invalidArgument` is the `ValueError` raised by `random.sample` when the
requested size exceeds the population; `typeError` is the failure of
unpacking a stored `None` placeholder. -/
inductive PyError where
  | invalidArgument
  | typeError
deriving DecidableEq

/-- `random.sample(population, k)`: validates `k` against the population
size (the `ValueError` path) and otherwise returns the elements at the
oracle-chosen indices `idxs` (the randomness is externalised into `idxs`;
out-of-range oracle indices select nothing). -/
def randomSample (population : List α) (k : Nat) (idxs : List Nat) :
    Except PyError (List α) :=
  if k ≤ population.length then
    Except.ok (idxs.filterMap fun i => population[i]?)
  else
    Except.error PyError.invalidArgument

/-- `Transition(*zip(*transitions))` followed by the five per-field
concatenations of `sample`: groups the drawn transitions by field.  Each
grouped 2-D array is the list of that field's rows in draw order.
Unpacking a stored `None` raises `TypeError` (zip's arguments must
support iteration), and an empty draw also raises `TypeError`
(`zip(*[])` yields nothing, so `Transition()` is missing its five field
arguments). -/
def groupFields (chosen : List (Option (Transition ρ))) :
    Except PyError (List ρ × List ρ × List ρ × List ρ × List ρ) :=
  match chosen.mapM id with
  | none => Except.error PyError.typeError
  | some [] => Except.error PyError.typeError
  | some ts =>
    Except.ok (ts.map Transition.state, ts.map Transition.action,
      ts.map Transition.reward, ts.map Transition.next_state,
      ts.map Transition.done)

/-- `ReplayMemory.sample`: draws `batch_size` transitions from the whole
storage with `random.sample` and returns the grouped field arrays in the
fixed source order `(state, action, reward, next_state, done)`.  The
method assigns nothing to `self`, so the post-state is the input state. -/
def ReplayMemory.sample (m : ReplayMemory (Transition ρ)) (batchSize : Nat)
    (idxs : List Nat) :
    Except PyError (List ρ × List ρ × List ρ × List ρ × List ρ) ×
      ReplayMemory (Transition ρ) :=
  ((randomSample m.memory batchSize idxs).bind groupFields, m)

/-- `ReplayMemory.sample_from_latest`: same as `sample` but the sampling
pool is `get_latest latest` instead of the whole storage. -/
def ReplayMemory.sample_from_latest (m : ReplayMemory (Transition ρ))
    (batchSize latest : Nat) (idxs : List Nat) :
    Except PyError (List ρ × List ρ × List ρ × List ρ × List ρ) ×
      ReplayMemory (Transition ρ) :=
  ((randomSample (m.get_latest latest) batchSize idxs).bind groupFields, m)

lemma mapM_id_of_all_isSome (l : List (Option σ)) (h : ∀ x ∈ l, x.isSome) :
    l.mapM id = some l.reduceOption := by
  induction l with
  | nil => rfl
  | cons a t ih =>
    have ha := h a (by simp)
    match a, ha with
    | some b, _ =>
      rw [List.reduceOption_cons_of_some, List.mapM_cons,
        ih fun x hx => h x (by simp [hx])]
      rfl

lemma length_filterMap_getElem (l : List α) (idxs : List Nat)
    (h : ∀ i ∈ idxs, i < l.length) :
    (idxs.filterMap fun i => l[i]?).length = idxs.length := by
  induction idxs with
  | nil => rfl
  | cons i t ih =>
    rw [List.filterMap_cons]
    cases hx : l[i]? with
    | none =>
      have hge : l.length ≤ i := by simpa using List.getElem?_eq_none_iff.mp hx
      exact absurd (h i (by simp)) (by omega)
    | some x =>
      rw [List.length_cons, List.length_cons, ih fun j hj => h j (by simp [hj])]

lemma groupFields_nil :
    groupFields ([] : List (Option (Transition ρ))) =
      Except.error PyError.typeError := rfl

/-- On a non-empty all-`some` draw, `groupFields` succeeds with the five
field projections. -/
lemma groupFields_eq_ok (chosen : List (Option (Transition ρ)))
    (h : ∀ x ∈ chosen, x.isSome) (hne : chosen ≠ []) :
    groupFields chosen =
      Except.ok (chosen.reduceOption.map Transition.state,
        chosen.reduceOption.map Transition.action,
        chosen.reduceOption.map Transition.reward,
        chosen.reduceOption.map Transition.next_state,
        chosen.reduceOption.map Transition.done) := by
  unfold groupFields
  rw [mapM_id_of_all_isSome chosen h]
  obtain ⟨-, hro2⟩ := reduceOption_of_all_isSome chosen h
  cases hc : chosen.reduceOption with
  | nil =>
    exfalso
    rw [hc] at hro2
    exact hne (List.length_eq_zero.mp (by simpa using hro2.symm))
  | cons t ts =>
    rfl

/-- C6 counterexample: on a reachable one-element buffer, `sample(0)` — a
batch size that does NOT exceed the stored count — still fails, with the
`TypeError` raised by `Transition(*zip(*[]))`, so "fails if and only if
batch_size exceeds the count" does not characterise all failures. -/
theorem sample_zero_typeerror_cex :
    (ReplayMemory.empty (Transition Nat) 1).addAll [⟨1, 2, 3, 4, 5⟩] =
        some ⟨1, [some (⟨1, 2, 3, 4, 5⟩ : Transition Nat)], 0⟩ ∧
      (0 : Nat) ≤ ReplayMemory.length
        (⟨1, [some (⟨1, 2, 3, 4, 5⟩ : Transition Nat)], 0⟩ :
          ReplayMemory (Transition Nat)) ∧
      (ReplayMemory.sample
          (⟨1, [some (⟨1, 2, 3, 4, 5⟩ : Transition Nat)], 0⟩ :
            ReplayMemory (Transition Nat)) 0 []).1 =
        Except.error PyError.typeError :=
  ⟨rfl, Nat.zero_le _, rfl⟩

/-- C6 amended: on a well-formed buffer, `sample` returns the
invalid-argument error exactly when the batch size exceeds the stored
count; for a batch size of at least 1 with a valid draw (as `random.sample`
produces) that is the only possible error, while a batch size of 0 instead
fails with `TypeError` when regrouping the empty batch; in every case the
buffer state is unchanged. -/
theorem sample_invalid_argument_iff_amended (m : ReplayMemory (Transition ρ))
    (batchSize : Nat) (idxs : List Nat) (hwf : WF m) :
    ((m.sample batchSize idxs).1 = Except.error PyError.invalidArgument ↔
        m.length < batchSize) ∧
      (1 ≤ batchSize → idxs.length = batchSize →
        (∀ i ∈ idxs, i < m.memory.length) →
        ∀ e, (m.sample batchSize idxs).1 = Except.error e →
          e = PyError.invalidArgument) ∧
      (m.sample batchSize idxs).2 = m := by
  obtain ⟨-, -, -, -, hsome⟩ := hwf
  by_cases h : batchSize ≤ m.memory.length
  · have hchosen : ∀ x ∈ idxs.filterMap (fun i => m.memory[i]?), x.isSome := by
      intro x hx
      obtain ⟨i, _, hxe⟩ := List.mem_filterMap.mp hx
      exact hsome x (List.getElem?_mem hxe)
    have hr : (m.sample batchSize idxs).1 =
        groupFields (idxs.filterMap fun i => m.memory[i]?) := by
      unfold ReplayMemory.sample randomSample
      rw [if_pos h]
      rfl
    refine ⟨?_, ?_, rfl⟩
    · rw [hr]
      by_cases hce : (idxs.filterMap fun i => m.memory[i]?) = []
      · rw [hce, groupFields_nil]
        constructor
        · intro he
          injection he with h2
          cases h2
        · intro hlt
          exfalso
          unfold ReplayMemory.length at hlt
          omega
      · rw [groupFields_eq_ok _ hchosen hce]
        constructor
        · intro he
          cases he
        · intro hlt
          exfalso
          unfold ReplayMemory.length at hlt
          omega
    · intro hbs hlen hrange e he
      have hchlen := length_filterMap_getElem m.memory idxs hrange
      have hne : (idxs.filterMap fun i => m.memory[i]?) ≠ [] := by
        intro hh
        rw [hh] at hchlen
        simp at hchlen
        omega
      rw [hr, groupFields_eq_ok _ hchosen hne] at he
      cases he
  · have hres : (m.sample batchSize idxs).1 =
        Except.error PyError.invalidArgument := by
      unfold ReplayMemory.sample randomSample
      rw [if_neg h]
      rfl
    refine ⟨?_, ?_, rfl⟩
    · rw [hres]
      unfold ReplayMemory.length
      constructor
      · intro _
        omega
      · intro _
        rfl
    · intro _ _ _ e he
      rw [hres] at he
      injection he with h2
      exact h2.symm

/-- Witness for the amended C6: a one-element buffer and an oversized
batch. -/
theorem sample_invalid_argument_iff_amended_witness :
    (ReplayMemory.sample
        (⟨1, [some (⟨1, 2, 3, 4, 5⟩ : Transition Nat)], 0⟩ :
          ReplayMemory (Transition Nat)) 2 []).1 =
      Except.error PyError.invalidArgument :=
  ((sample_invalid_argument_iff_amended
      (⟨1, [some (⟨1, 2, 3, 4, 5⟩ : Transition Nat)], 0⟩ :
        ReplayMemory (Transition Nat)) 2 []
      (by unfold WF; decide)).1).mpr (by decide)

/-- C8: with a valid oracle draw of `batch_size` distinct in-range indices
from a well-formed buffer holding at least `batch_size` transitions,
`sample` succeeds and returns, in the fixed field order, five grouped
arrays with exactly `batch_size` rows each, every row being the matching
field of some stored transition. -/
theorem sample_grouping (m : ReplayMemory (Transition ρ)) (batchSize : Nat)
    (idxs : List Nat) (hwf : WF m) (hbs : 1 ≤ batchSize)
    (hle : batchSize ≤ m.length) (hlen : idxs.length = batchSize)
    (hrange : ∀ i ∈ idxs, i < m.memory.length) (_hnd : idxs.Nodup) :
    ∃ s a r ns d, (m.sample batchSize idxs).1 = Except.ok (s, a, r, ns, d) ∧
      s.length = batchSize ∧ a.length = batchSize ∧ r.length = batchSize ∧
      ns.length = batchSize ∧ d.length = batchSize ∧
      (∀ row ∈ s, ∃ t, some t ∈ m.memory ∧ row = t.state) ∧
      (∀ row ∈ a, ∃ t, some t ∈ m.memory ∧ row = t.action) ∧
      (∀ row ∈ r, ∃ t, some t ∈ m.memory ∧ row = t.reward) ∧
      (∀ row ∈ ns, ∃ t, some t ∈ m.memory ∧ row = t.next_state) ∧
      (∀ row ∈ d, ∃ t, some t ∈ m.memory ∧ row = t.done) := by
  obtain ⟨-, -, -, -, hsome⟩ := hwf
  have hsub : ∀ x ∈ idxs.filterMap (fun i => m.memory[i]?), x ∈ m.memory := by
    intro x hx
    obtain ⟨i, _, hxe⟩ := List.mem_filterMap.mp hx
    exact List.getElem?_mem hxe
  have hchosen : ∀ x ∈ idxs.filterMap (fun i => m.memory[i]?), x.isSome :=
    fun x hx => hsome x (hsub x hx)
  obtain ⟨hro1, hro2⟩ :=
    reduceOption_of_all_isSome (idxs.filterMap fun i => m.memory[i]?) hchosen
  have hchlen : (idxs.filterMap fun i => m.memory[i]?).length = batchSize := by
    rw [length_filterMap_getElem m.memory idxs hrange, hlen]
  have hres : (m.sample batchSize idxs).1 =
      Except.ok
        (((idxs.filterMap fun i => m.memory[i]?).reduceOption.map Transition.state),
          ((idxs.filterMap fun i => m.memory[i]?).reduceOption.map Transition.action),
          ((idxs.filterMap fun i => m.memory[i]?).reduceOption.map Transition.reward),
          ((idxs.filterMap fun i => m.memory[i]?).reduceOption.map Transition.next_state),
          ((idxs.filterMap fun i => m.memory[i]?).reduceOption.map Transition.done)) := by
    unfold ReplayMemory.sample randomSample
    rw [if_pos (by unfold ReplayMemory.length at hle; omega)]
    show groupFields _ = _
    refine groupFields_eq_ok _ hchosen ?_
    intro hh
    rw [hh] at hchlen
    simp at hchlen
    omega
  have hmemts : ∀ t ∈ (idxs.filterMap fun i => m.memory[i]?).reduceOption,
      some t ∈ m.memory := by
    intro t ht
    refine hsub (some t) ?_
    rw [← hro1]
    exact List.mem_map_of_mem some ht
  have hrow : ∀ (g : Transition ρ → ρ),
      ∀ row ∈ (idxs.filterMap fun i => m.memory[i]?).reduceOption.map g,
        ∃ t, some t ∈ m.memory ∧ row = g t := by
    intro g row hrow
    obtain ⟨t, ht, hte⟩ := List.mem_map.mp hrow
    exact ⟨t, hmemts t ht, hte.symm⟩
  refine ⟨_, _, _, _, _, hres, ?_, ?_, ?_, ?_, ?_,
    hrow Transition.state, hrow Transition.action, hrow Transition.reward,
    hrow Transition.next_state, hrow Transition.done⟩ <;>
    rw [List.length_map, hro2, hchlen]

/-- Witness for C8: drawing one transition from a full one-slot buffer. -/
theorem sample_grouping_witness :
    ∃ s a r ns d,
      (ReplayMemory.sample
          (⟨1, [some (⟨1, 2, 3, 4, 5⟩ : Transition Nat)], 0⟩ :
            ReplayMemory (Transition Nat)) 1 [0]).1 = Except.ok (s, a, r, ns, d) ∧
        s.length = 1 ∧ a.length = 1 ∧ r.length = 1 ∧ ns.length = 1 ∧ d.length = 1 ∧
        (∀ row ∈ s, ∃ t, some t ∈ [some (⟨1, 2, 3, 4, 5⟩ : Transition Nat)] ∧
          row = t.state) ∧
        (∀ row ∈ a, ∃ t, some t ∈ [some (⟨1, 2, 3, 4, 5⟩ : Transition Nat)] ∧
          row = t.action) ∧
        (∀ row ∈ r, ∃ t, some t ∈ [some (⟨1, 2, 3, 4, 5⟩ : Transition Nat)] ∧
          row = t.reward) ∧
        (∀ row ∈ ns, ∃ t, some t ∈ [some (⟨1, 2, 3, 4, 5⟩ : Transition Nat)] ∧
          row = t.next_state) ∧
        (∀ row ∈ d, ∃ t, some t ∈ [some (⟨1, 2, 3, 4, 5⟩ : Transition Nat)] ∧
          row = t.done) :=
  sample_grouping
    (⟨1, [some (⟨1, 2, 3, 4, 5⟩ : Transition Nat)], 0⟩ :
      ReplayMemory (Transition Nat)) 1 [0]
    (by unfold WF; decide) (by decide) (by decide) (by decide)
    (by decide) (by decide)

/-- C10: `sample_from_latest` fails with the invalid-argument error
whenever the batch size exceeds the length of the actual pool
`get_latest(n)`; in particular (second conjunct) it fails on a buffer
holding 2 of a requested 3 latest even though `batch_size ≤ n`, so
`batch_size ≤ n` alone is not a sufficient precondition. -/
theorem sample_from_latest_pool_bound :
    (∀ (ρ : Type) (m : ReplayMemory (Transition ρ)) (batchSize latest : Nat)
        (idxs : List Nat),
        (m.get_latest latest).length < batchSize →
        (m.sample_from_latest batchSize latest idxs).1 =
          Except.error PyError.invalidArgument) ∧
      ((3 : Nat) ≤ 3 ∧
        (ReplayMemory.sample_from_latest
            (⟨5, [some (⟨0, 0, 0, 0, 0⟩ : Transition Nat),
              some (⟨1, 1, 1, 1, 1⟩ : Transition Nat)], 2⟩ :
              ReplayMemory (Transition Nat)) 3 3 []).1 =
          Except.error PyError.invalidArgument) := by
  constructor
  · intro ρ m batchSize latest idxs h
    unfold ReplayMemory.sample_from_latest randomSample
    rw [if_neg (by omega)]
    rfl
  · exact ⟨by decide, rfl⟩

/-- Witness for C10 on an empty pool. -/
theorem sample_from_latest_pool_bound_witness :
    (ReplayMemory.sample_from_latest (ReplayMemory.empty (Transition Nat) 5)
        1 0 []).1 = Except.error PyError.invalidArgument :=
  sample_from_latest_pool_bound.1 Nat (ReplayMemory.empty (Transition Nat) 5)
    1 0 [] (by decide)

/-- `ReplayMemory.add_latest_from`: pulls the latest `latest` transitions
from the other buffer via `get_latest` and inserts each through `add` in
the returned order.  Unpacking a `None` placeholder raises in Python,
modelled by `Option.bind`. -/
def ReplayMemory.add_latest_from (m other : ReplayMemory σ) (latest : Nat) :
    Option (ReplayMemory σ) :=
  (other.get_latest latest).foldlM (fun acc t => t.bind acc.add) m

/-- `ReplayMemory.add_content_of`: same transfer with `latest` fixed to
this buffer's own capacity. -/
def ReplayMemory.add_content_of (m other : ReplayMemory σ) :
    Option (ReplayMemory σ) :=
  (other.get_latest m.capacity).foldlM (fun acc t => t.bind acc.add) m

/-- `ReplayMemory.reset`. -/
def ReplayMemory.reset (m : ReplayMemory σ) : ReplayMemory σ :=
  ⟨m.capacity, [], 0⟩

lemma mem_of_mem_pySliceFrom (l : List α) (i : Int) (x : α)
    (hx : x ∈ pySliceFrom l i) : x ∈ l := by
  unfold pySliceFrom at hx
  split_ifs at hx <;> exact List.mem_of_mem_drop hx

lemma mem_of_mem_pySliceTo (l : List α) (i : Int) (x : α)
    (hx : x ∈ pySliceTo l i) : x ∈ l := by
  unfold pySliceTo at hx
  split_ifs at hx <;> exact List.mem_of_mem_take hx

/-- Every element returned by `get_latest` is a stored element. -/
lemma mem_of_mem_get_latest (m : ReplayMemory σ) (n : Nat) (x : Option σ)
    (hx : x ∈ m.get_latest n) : x ∈ m.memory := by
  unfold ReplayMemory.get_latest at hx
  split_ifs at hx
  · rcases List.mem_append.mp hx with h | h
    · exact mem_of_mem_pySliceFrom _ _ _ h
    · exact mem_of_mem_pySliceTo _ _ _ h
  · exact mem_of_mem_pySliceFrom _ _ _ hx
  · exact mem_of_mem_pySliceTo _ _ _ (mem_of_mem_pySliceFrom _ _ _ hx)
  · rcases List.mem_append.mp hx with h | h
    · exact mem_of_mem_pySliceFrom _ _ _ h
    · exact mem_of_mem_pySliceTo _ _ _ h

/-- On a well-formed buffer, `get_latest n` never returns more than `n`
elements (for `n > 0`). -/
lemma get_latest_length_le (m : ReplayMemory σ) (n : Nat) (hwf : WF m)
    (hn : 0 < n) : (m.get_latest n).length ≤ n := by
  obtain ⟨hcap, hlen, hpos, hfill, -⟩ := hwf
  unfold ReplayMemory.get_latest
  split_ifs with h1 h2 h3
  · rw [pySliceFrom_ofNat, pySliceTo_ofNat, List.length_append,
      List.length_drop, List.length_take]
    omega
  · rw [pySliceFrom_neg_ofNat _ _ hn, List.length_drop]
    omega
  · rw [pySliceTo_ofNat, pySliceFrom_neg_ofNat _ _ hn, List.length_drop,
      List.length_take]
    omega
  · rw [pySliceTo_ofNat, pySliceFrom_sub _ _ _ (by omega), List.length_append,
      List.length_drop, List.length_take]
    omega

/-- Filling-branch evaluation of `get_latest` when the requested count
covers the whole storage. -/
lemma get_latest_filling_all (m : ReplayMemory σ) (n : Nat)
    (h1 : ¬ m.capacity < n) (h2 : m.memory.length < m.capacity) (hn : 0 < n)
    (hle : m.memory.length ≤ n) : m.get_latest n = m.memory := by
  unfold ReplayMemory.get_latest
  rw [if_neg h1, if_pos h2, pySliceFrom_neg_ofNat _ _ hn,
    show m.memory.length - n = 0 by omega, List.drop_zero]

/-- Full-buffer evaluation of `get_latest` at cursor 0 when the requested
count covers the whole storage. -/
lemma get_latest_full_cursor_zero (m : ReplayMemory σ) (n : Nat)
    (h1 : ¬ m.capacity < n) (h2 : ¬ m.memory.length < m.capacity)
    (hpos : m.position = 0) (hn : 0 < n) (hle : m.memory.length ≤ n) :
    m.get_latest n = m.memory := by
  unfold ReplayMemory.get_latest
  rw [if_neg h1, if_neg h2, hpos, if_neg (by omega),
    pySliceFrom_sub _ _ _ (by omega),
    show m.memory.length - (n - 0) = 0 by omega, List.drop_zero]
  simp [pySliceTo]

/-- Folding `add` over a list of already-unwrapped transitions agrees with
`addAll`. -/
lemma foldlM_bind_add_map_some (m : ReplayMemory σ) (ys : List σ) :
    (ys.map some).foldlM (fun acc t => t.bind acc.add) m = m.addAll ys := by
  induction ys generalizing m with
  | nil => rfl
  | cons y t ih =>
    rw [List.map_cons, List.foldlM_cons, Option.some_bind]
    have hr : m.addAll (y :: t) = (m.add y).bind fun m1 => m1.addAll t := by
      unfold ReplayMemory.addAll
      rw [List.foldlM_cons]
      rfl
    rw [hr]
    cases h : m.add y with
    | none => rfl
    | some m1 =>
      exact ih m1

/-- C7 counterexample at `n = 0`: transferring the latest 0 from a
reachable 2-element source into an empty destination of capacity 2 (≥ 0)
copies the whole pool (Python's `-0` slice), fills the destination, and
then `get_latest 0` on the now-full destination with cursor 0 is empty
while the source's `get_latest 0` is not. -/
theorem transfer_zero_cex :
    (ReplayMemory.empty Nat 5).addAll [10, 20] = some ⟨5, [some 10, some 20], 2⟩ ∧
      0 ≤ (2 : Nat) ∧
      ReplayMemory.add_latest_from (ReplayMemory.empty Nat 2)
        (⟨5, [some 10, some 20], 2⟩ : ReplayMemory Nat) 0 =
        some ⟨2, [some 10, some 20], 0⟩ ∧
      ReplayMemory.get_latest (⟨2, [some 10, some 20], 0⟩ : ReplayMemory Nat) 0 ≠
        ReplayMemory.get_latest (⟨5, [some 10, some 20], 2⟩ : ReplayMemory Nat) 0 := by
  decide

/-- C7 amended: for every well-formed source buffer and every `n ≥ 1`,
transferring the latest `n` into an empty destination of capacity `≥ n`
succeeds and makes the destination's `get_latest n` equal element-wise to
the source's `get_latest n` at call time. -/
theorem transfer_preserves_recency_amended (src : ReplayMemory σ) (n D : Nat)
    (hwf : WF src) (hn : 1 ≤ n) (hD : n ≤ D) :
    ∃ d, (ReplayMemory.empty σ D).add_latest_from src n = some d ∧
      d.get_latest n = src.get_latest n := by
  have hLsome : ∀ x ∈ src.get_latest n, x.isSome :=
    fun x hx => hwf.2.2.2.2 x (mem_of_mem_get_latest src n x hx)
  have hLlen : (src.get_latest n).length ≤ n := get_latest_length_le src n hwf hn
  obtain ⟨hro1, hro2⟩ := reduceOption_of_all_isSome (src.get_latest n) hLsome
  obtain ⟨mlive, hlive, hcapEq, hpos2, hlen2, hnf2, -⟩ :=
    addAll_empty_char D (by omega) (src.get_latest n).reduceOption
  have hmem2 : mlive.memory = src.get_latest n := by
    rw [hnf2 (by omega), hro1]
  have hfold : (ReplayMemory.empty σ D).add_latest_from src n = some mlive := by
    unfold ReplayMemory.add_latest_from
    rw [← hro1, foldlM_bind_add_map_some]
    exact hlive
  refine ⟨mlive, hfold, ?_⟩
  have hmlen : mlive.memory.length = (src.get_latest n).length := by
    rw [hmem2]
  by_cases hkD : mlive.memory.length < mlive.capacity
  · rw [get_latest_filling_all mlive n (by omega) hkD (by omega) (by omega),
      hmem2]
  · have hfull : mlive.memory.length = D := by
      rw [hmlen, ← hro2]
      omega
    have hnD : n = D := by
      rw [hcapEq] at hkD
      omega
    have hpos0 : mlive.position = 0 := by
      rw [hpos2, ← hfull, hmlen, ← hro2]
      exact Nat.mod_self _
    rw [get_latest_full_cursor_zero mlive n (by omega) hkD hpos0 (by omega)
      (by omega), hmem2]

/-- Witness for the amended C7: source full with wrapped cursor. -/
theorem transfer_preserves_recency_amended_witness :
    ∃ d, ReplayMemory.add_latest_from (ReplayMemory.empty Nat 2)
        (⟨5, [some 10, some 20], 2⟩ : ReplayMemory Nat) 2 = some d ∧
      d.get_latest 2 =
        ReplayMemory.get_latest (⟨5, [some 10, some 20], 2⟩ : ReplayMemory Nat) 2 :=
  transfer_preserves_recency_amended
    (⟨5, [some 10, some 20], 2⟩ : ReplayMemory Nat) 2 2
    (by unfold WF; decide) (by decide) (by decide)

end MOPDERL
